import Mathlib

/-!
Shallow embedding of the rpm vault engine: the cipher layer
(`src/crypto/mod.rs`), key derivation (`src/crypto/key_derivation.rs`) and
the encrypted index / secret record storage layer (`src/storage/mod.rs`).

Modelling conventions:
* Bytes are natural numbers and byte strings are `List Nat`; where a length
  matters the source length is mirrored exactly (32-byte keys, 12-byte
  nonces, the 12-byte nonce header of the `def` file).
* Rust `&str` / `String` values are Lean `String`s; `str::as_bytes` and
  `String::from_utf8` are modelled by an injective code-point encoding
  (`strToBytes` / `strFromBytes`), which preserves exactly the properties
  the claims use: the encoding is injective and decoding is its left
  inverse.
* External library crates (`aes_gcm`, `argon2`, `base64`, `serde_json`) are
  not code of this repository; each is modelled by an executable
  idealization of its documented contract, marked in its doc comment.
  In particular AES-256-GCM is an ideal AEAD: sealing is injective and
  opening authenticates key, nonce and ciphertext, so any corruption of a
  sealed blob is detected.
* A Rust panic is a distinguished outcome `PRes.panicked`; functions that
  can panic return `PRes`.
* The filesystem fragment the storage layer touches is an explicit
  association list from paths to byte contents, passed in and out.
* Randomness (`OsRng` nonces and generated salts) is passed as an explicit
  parameter.
-/

namespace Rpm

/-- Byte strings of the Rust code; a byte is modelled as a natural number. -/
abbrev Bytes := List Nat

/-- Model of Rust `str::as_bytes`: the injective code-point encoding of a
string. -/
def strToBytes (s : String) : Bytes := s.data.map Char.toNat

/-- Model of Rust `String::from_utf8`: decodes the code-point encoding,
failing on any value that is not a valid scalar value. -/
def strFromBytes (bs : Bytes) : Option String :=
  if bs.all (fun n => decide (Nat.isValidChar n)) then
    some (String.mk (bs.map Char.ofNat))
  else
    none

theorem strFromBytes_strToBytes (s : String) :
    strFromBytes (strToBytes s) = some s := by
  unfold strFromBytes strToBytes
  rw [if_pos]
  · have h : ∀ c ∈ s.data, Char.ofNat (Char.toNat c) = c :=
      fun c _ => Char.ofNat_toNat c
    rw [List.map_map]
    have h2 : s.data.map (Char.ofNat ∘ Char.toNat) = s.data.map id :=
      List.map_congr_left (fun c hc => h c hc)
    rw [h2, List.map_id]
  · rw [List.all_eq_true]
    intro n hn
    rw [List.mem_map] at hn
    obtain ⟨c, _, rfl⟩ := hn
    exact decide_eq_true c.valid

theorem strToBytes_inj {s t : String} (h : strToBytes s = strToBytes t) :
    s = t := by
  have h1 := strFromBytes_strToBytes s
  have h2 := strFromBytes_strToBytes t
  rw [h] at h1
  rw [h1] at h2
  exact Option.some_injective _ h2

/-- Ideal AEAD seal, the model of `Aes256Gcm::encrypt` from the `aes_gcm`
crate: the sealed blob carries a length header and a fully redundant payload
recording key, nonce and plaintext, so that opening can authenticate all
three and any single-position corruption of the blob is detected. -/
def gcmSeal (key nonce pt : Bytes) : Bytes :=
  let payload := key.length :: (key ++ nonce.length :: (nonce ++ pt))
  payload.length :: (payload ++ payload)

/-- Ideal AEAD open, the model of `Aes256Gcm::decrypt` from the `aes_gcm`
crate: succeeds exactly on blobs sealed under the same key and nonce, and
returns the sealed plaintext. -/
def gcmOpen (ciphertext nonce key : Bytes) : Option Bytes :=
  match ciphertext with
  | [] => none
  | l :: rest =>
    if rest.length = 2 * l ∧ rest.take l = rest.drop l then
      match rest.take l with
      | [] => none
      | kl :: r2 =>
        if kl = key.length ∧ r2.take kl = key then
          match r2.drop kl with
          | [] => none
          | nl :: r4 =>
            if nl = nonce.length ∧ r4.take nl = nonce then
              some (r4.drop nl)
            else
              none
        else
          none
    else
      none

theorem gcmOpen_cons_append (p : Bytes) (key nonce pt : Bytes)
    (hp : p = key.length :: (key ++ nonce.length :: (nonce ++ pt))) :
    gcmOpen (p.length :: (p ++ p)) nonce key = some pt := by
  unfold gcmOpen
  simp only []
  have h1 : (p ++ p).length = 2 * p.length := by
    simp [Nat.two_mul]
  have h2 : (p ++ p).take p.length = p := List.take_left' rfl
  have h3 : (p ++ p).drop p.length = p := List.drop_left' rfl
  rw [if_pos ⟨h1, by rw [h2, h3]⟩, h2]
  subst hp
  simp only []
  rw [if_pos ⟨trivial, List.take_left' rfl⟩, List.drop_left' rfl]
  simp only []
  rw [if_pos ⟨trivial, List.take_left' rfl⟩, List.drop_left' rfl]

theorem gcmOpen_gcmSeal (key nonce pt : Bytes) :
    gcmOpen (gcmSeal key nonce pt) nonce key = some pt :=
  gcmOpen_cons_append (key.length :: (key ++ nonce.length :: (nonce ++ pt)))
    key nonce pt rfl

/-- Building block for the injective textual encodings used to model
`base64` and `serde_json`: one string, preceded by a unary length header. -/
def encStr (s : String) : List Char :=
  List.replicate s.length 'L' ++ '#' :: s.data

/-- Injective encoding of a list of strings into characters. -/
def encStrs (l : List String) : List Char :=
  (l.map encStr).flatten

/-- Fuel-based decoder for `encStrs`; the fuel only bounds the number of
decoded strings, so that recursion is structural. -/
def decStrs : Nat → List Char → Option (List String)
  | fuel, cs =>
    if cs.isEmpty then
      some []
    else
      match fuel with
      | 0 => none
      | Nat.succ f =>
        let n := (cs.takeWhile (fun c => c == 'L')).length
        match cs.drop n with
        | '#' :: rest =>
          if n ≤ rest.length then
            match decStrs f (rest.drop n) with
            | some l => some (String.mk (rest.take n) :: l)
            | none => none
          else
            none
        | _ => none

theorem takeWhile_isL_replicate_append (n : Nat) (rest : List Char) :
    (List.replicate n 'L' ++ '#' :: rest).takeWhile (fun c => c == 'L') =
      List.replicate n 'L' := by
  induction n with
  | zero => simp [List.takeWhile_cons]
  | succ k ih =>
    rw [List.replicate_succ, List.cons_append, List.takeWhile_cons]
    simp only [beq_self_eq_true, if_true]
    rw [ih]

theorem encStrs_cons (s : String) (t : List String) :
    encStrs (s :: t) =
      List.replicate s.length 'L' ++ '#' :: (s.data ++ encStrs t) := by
  unfold encStrs encStr
  rw [List.map_cons, List.flatten_cons, List.append_assoc, List.cons_append]

theorem decStrs_encStrs (l : List String) (fuel : Nat) (h : l.length ≤ fuel) :
    decStrs fuel (encStrs l) = some l := by
  induction l generalizing fuel with
  | nil =>
    cases fuel with
    | zero => rfl
    | succ k => rfl
  | cons s t ih =>
    cases fuel with
    | zero => exact absurd h (by simp)
    | succ k =>
      rw [encStrs_cons]
      unfold decStrs
      rw [if_neg (by cases hs : s.length <;> simp [List.replicate_succ])]
      simp only []
      have hn : ((List.replicate s.length 'L' ++ '#' :: (s.data ++ encStrs t)).takeWhile
          (fun c => c == 'L')).length = s.length := by
        rw [takeWhile_isL_replicate_append, List.length_replicate]
      simp only [hn]
      rw [List.drop_left' (List.length_replicate s.length 'L')]
      simp only []
      have hle : s.length ≤ (s.data ++ encStrs t).length := by
        rw [List.length_append]
        exact Nat.le_add_right _ _
      rw [if_pos hle]
      rw [List.drop_left' (show s.data.length = s.length from rfl)]
      rw [ih k (Nat.le_of_succ_le_succ h)]
      rw [List.take_left' (show s.data.length = s.length from rfl)]

theorem length_le_length_encStrs (l : List String) :
    l.length ≤ (encStrs l).length := by
  induction l with
  | nil => simp [encStrs]
  | cons s t ih =>
    rw [encStrs_cons]
    simp only [List.length_cons, List.length_append, List.length_cons,
      List.length_replicate]
    omega

/-- Decoding with the canonical fuel recovers any encoded list. -/
theorem decStrs_encStrs_self (l : List String) :
    decStrs (encStrs l).length (encStrs l) = some l :=
  decStrs_encStrs l _ (length_le_length_encStrs l)

/-- Unary spelling of one byte, used by the base64 model. -/
def natTok (n : Nat) : String :=
  String.mk (List.replicate n 'I')

/-- Model of the `base64` crate's STANDARD (and STANDARD_NO_PAD) engine
`encode`: an injective encoding of byte strings into strings.  The claims
use only that encoding is injective and that `b64decode` inverts it, which
holds of the real base64 alphabet encoding as well. -/
def b64encode (bs : Bytes) : String :=
  String.mk (encStrs (bs.map natTok))

/-- Model of the `base64` crate's `decode`: left inverse of `b64encode`,
failing on strings outside the image grammar. -/
def b64decode (s : String) : Option Bytes :=
  match decStrs s.data.length s.data with
  | some l => some (l.map String.length)
  | none => none

theorem natTok_length (n : Nat) : (natTok n).length = n := by
  unfold natTok
  show (List.replicate n 'I').length = n
  rw [List.length_replicate]

theorem b64decode_b64encode (bs : Bytes) :
    b64decode (b64encode bs) = some bs := by
  unfold b64decode b64encode
  show (match decStrs (encStrs (bs.map natTok)).length (encStrs (bs.map natTok)) with
    | some l => some (l.map String.length)
    | none => none) = some bs
  rw [decStrs_encStrs_self]
  simp only []
  rw [List.map_map]
  have h : bs.map (String.length ∘ natTok) = bs.map id :=
    List.map_congr_left (fun n _ => natTok_length n)
  rw [h, List.map_id]

/-- Index entry, from `src/models.rs` (`DefFileEntry`). -/
structure DefFileEntry where
  encrypted_filename : String
  encrypted_name : String
  nonce : String
deriving DecidableEq

/-- Encrypted index content, from `src/models.rs` (`DefFile`). -/
structure DefFile where
  entries : List DefFileEntry
deriving DecidableEq

/-- Secret record file content, from `src/models.rs` (`PasswordFile`). -/
structure PasswordFile where
  encrypted_password : String
  nonce : String
deriving DecidableEq

/-- The three textual fields of one index entry, in serialization order. -/
def entryFields (e : DefFileEntry) : List String :=
  [e.encrypted_filename, e.encrypted_name, e.nonce]

/-- Model of `serde_json::to_string` at type `DefFile`: an injective textual
encoding of the entry list. -/
def defFileToString (df : DefFile) : String :=
  String.mk (encStrs ((df.entries.map entryFields).flatten))

/-- Regroups a flat field list into entries; fails when the count is not a
multiple of three. -/
def group3 : List String → Option (List DefFileEntry)
  | [] => some []
  | a :: b :: c :: rest =>
    match group3 rest with
    | some l => some (⟨a, b, c⟩ :: l)
    | none => none
  | _ => none

/-- Model of `serde_json::from_str` at type `DefFile`: left inverse of
`defFileToString`, failing on malformed input. -/
def defFileFromString (s : String) : Option DefFile :=
  match decStrs s.data.length s.data with
  | some l =>
    match group3 l with
    | some es => some ⟨es⟩
    | none => none
  | none => none

theorem group3_flatten_fields (es : List DefFileEntry) :
    group3 ((es.map entryFields).flatten) = some es := by
  induction es with
  | nil => rfl
  | cons e rest ih =>
    rw [List.map_cons, List.flatten_cons]
    show group3 (e.encrypted_filename :: e.encrypted_name :: e.nonce ::
      (rest.map entryFields).flatten) = some (e :: rest)
    unfold group3
    rw [ih]

theorem defFileFromString_defFileToString (df : DefFile) :
    defFileFromString (defFileToString df) = some df := by
  unfold defFileFromString defFileToString
  show (match decStrs (encStrs ((df.entries.map entryFields).flatten)).length
      (encStrs ((df.entries.map entryFields).flatten)) with
    | some l =>
      match group3 l with
      | some es => some (⟨es⟩ : DefFile)
      | none => none
    | none => none) = some df
  rw [decStrs_encStrs_self]
  simp only []
  rw [group3_flatten_fields]

/-- Model of `serde_json::to_string` at type `PasswordFile`. -/
def pwdFileToString (pf : PasswordFile) : String :=
  String.mk (encStrs [pf.encrypted_password, pf.nonce])

/-- Model of `serde_json::from_str` at type `PasswordFile`. -/
def pwdFileFromString (s : String) : Option PasswordFile :=
  match decStrs s.data.length s.data with
  | some [a, b] => some ⟨a, b⟩
  | _ => none

/-- Kind payload of the `Io` variant, standing in for `std::io::Error`; the
storage layer only ever distinguishes "file not found" from other kinds. -/
inductive IoKind where
  | notFound
  | other
deriving DecidableEq

/-- Error type from `src/errors.rs` (`RpmError`).  Variants carry the
formatted message where the source formats one; messages produced by
external libraries are elided from the model, keeping the literal part
written in the repository's own format strings. -/
inductive RpmError where
  | Crypto (msg : String)
  | Config (msg : String)
  | Tui (msg : String)
  | Server (msg : String)
  | Tray (msg : String)
  | Io (kind : IoKind)
  | Serialization (msg : String)
  | AuthenticationFailed
  | InvalidInput (msg : String)
deriving DecidableEq

/-- Outcome of a Rust call that is not guaranteed panic-free: `panicked`
models a Rust panic, `ret` a normal return. -/
inductive PRes (α : Type) where
  | panicked
  | ret (a : α)
deriving DecidableEq

/-- From `src/crypto/mod.rs`, `CryptoManager::encrypt_password`: checks the
key length, then encrypts under a freshly generated 96-bit nonce (the
`nonce` parameter models the output of `Aes256Gcm::generate_nonce`). -/
def encrypt_password (password : String) (key : Bytes) (nonce : Bytes) :
    Except RpmError (Bytes × Bytes) :=
  if key.length ≠ 32 then
    Except.error (RpmError.Crypto "Key must be 32 bytes for AES-256")
  else
    Except.ok (gcmSeal key nonce (strToBytes password), nonce)

/-- From `src/crypto/mod.rs`, `CryptoManager::decrypt_password`: checks the
key length, builds the nonce with `Nonce::from_slice` — which panics
(`GenericArray` length assertion) whenever the slice is not exactly 12
bytes — then decrypts and re-validates UTF-8. -/
def decrypt_password (ciphertext nonce key : Bytes) :
    PRes (Except RpmError String) :=
  if key.length ≠ 32 then
    PRes.ret (Except.error (RpmError.Crypto "Key must be 32 bytes for AES-256"))
  else if nonce.length ≠ 12 then
    PRes.panicked
  else
    match gcmOpen ciphertext nonce key with
    | none => PRes.ret (Except.error (RpmError.Crypto "Decryption failed"))
    | some pt =>
      match strFromBytes pt with
      | some s => PRes.ret (Except.ok s)
      | none =>
        PRes.ret (Except.error (RpmError.Crypto "Invalid UTF-8 in decrypted data"))

/-- Ideal Argon2 digest, the model of the `argon2` crate's PHC hashing:
collision-free (injective in password and salt), which models the
collision resistance the password check relies on. -/
def argon2Digest (password : String) (saltStr : String) : Bytes :=
  strToBytes saltStr ++ strToBytes password

/-- PHC string: the self-describing output of `PasswordHash::to_string`,
modelled as an injective encoding of the embedded salt and the digest. -/
def phcString (saltStr : String) (digest : Bytes) : String :=
  String.mk (encStrs [saltStr, b64encode digest])

/-- Model of `PasswordHash::new`: parses a PHC string back into salt and
digest, failing on malformed input. -/
def phcParse (hash : String) : Option (String × Bytes) :=
  match decStrs hash.data.length hash.data with
  | some [saltStr, digestStr] =>
    match b64decode digestStr with
    | some d => some (saltStr, d)
    | none => none
  | _ => none

/-- From `src/crypto/mod.rs`, `CryptoManager::hash_password`: hashes the
master password with Argon2id under a generated salt (the `saltStr`
parameter models `SaltString::generate`). -/
def hash_password (password : String) (saltStr : String) :
    Except RpmError String :=
  Except.ok (phcString saltStr (argon2Digest password saltStr))

/-- From `src/crypto/mod.rs`, `CryptoManager::verify_password`: parses the
hash (Crypto error when malformed), recomputes and compares; a mismatch is
the value `false`, not an error. -/
def verify_password (password : String) (hash : String) :
    Except RpmError Bool :=
  match phcParse hash with
  | none => Except.error (RpmError.Crypto "Invalid hash format")
  | some (saltStr, digest) =>
    Except.ok (decide (argon2Digest password saltStr = digest))

theorem phcParse_phcString (saltStr : String) (digest : Bytes) :
    phcParse (phcString saltStr digest) = some (saltStr, digest) := by
  unfold phcParse phcString
  show (match decStrs (encStrs [saltStr, b64encode digest]).length
      (encStrs [saltStr, b64encode digest]) with
    | some [s, d] =>
      match b64decode d with
      | some b => some (s, b)
      | none => none
    | _ => none) = some (saltStr, digest)
  rw [decStrs_encStrs_self]
  simp only []
  rw [b64decode_b64encode]

/-- Model of the `argon2` crate's `hash_password_into`: rejects salts
shorter than the crate's 8-byte minimum, otherwise fills exactly 32 bytes
of output deterministically from password and salt. -/
def argon2HashInto (password : String) (saltBytes : Bytes) :
    Except RpmError Bytes :=
  if saltBytes.length < 8 then
    Except.error (RpmError.Crypto "Key derivation failed")
  else
    Except.ok (((strToBytes password ++ saltBytes).map (fun n => n % 256) ++
      List.replicate 32 0).take 32)

/-- Model of `SaltString::from_b64`: a PHC salt string must be between 4 and
64 characters. -/
def saltStringFromB64 (s : String) : Option String :=
  if 4 ≤ s.length ∧ s.length ≤ 64 then some s else none

/-- From `src/crypto/key_derivation.rs`, `derive_key`: when a salt is
supplied, base64-encodes it (no padding), validates it as a `SaltString`
(Crypto error when invalid) and derives 32 bytes from the password and the
salt string's bytes; when no salt is supplied, a generated salt string is
used instead (the `generated_salt` parameter models
`SaltString::generate`). -/
def derive_key (password : String) (salt : Option Bytes)
    (generated_salt : String) : Except RpmError Bytes :=
  match salt with
  | some saltBytes =>
    match saltStringFromB64 (b64encode saltBytes) with
    | none => Except.error (RpmError.Crypto "Invalid salt")
    | some salt_string => argon2HashInto password (strToBytes salt_string)
  | none => argon2HashInto password (strToBytes generated_salt)

/-- Modelled from the spec: `CryptoManager::encrypt_data` is called by the
storage layer (src/storage/mod.rs lines 80 and 94) but its definition is
not among the provided sources.  Per spec §4.2, `encrypt(plaintext, key)`
rejects any key whose length ≠ 32 bytes before touching the cipher, then
produces an authenticated ciphertext under a fresh random nonce (the
`nonce` parameter). -/
def encrypt_data (data : Bytes) (key : Bytes) (nonce : Bytes) :
    Except RpmError (Bytes × Bytes) :=
  if key.length ≠ 32 then
    Except.error (RpmError.Crypto "Key must be 32 bytes for AES-256")
  else
    Except.ok (gcmSeal key nonce data, nonce)

/-- Modelled from the spec: `CryptoManager::decrypt_data` is called by the
storage layer (src/storage/mod.rs lines 63 and 108) but its definition is
not among the provided sources.  Per spec §4.2, `decrypt(ciphertext, nonce,
key)` fails with a Crypto error whenever the tag does not verify and never
panics. -/
def decrypt_data (ciphertext nonce key : Bytes) : Except RpmError Bytes :=
  if key.length ≠ 32 then
    Except.error (RpmError.Crypto "Key must be 32 bytes for AES-256")
  else
    match gcmOpen ciphertext nonce key with
    | some pt => Except.ok pt
    | none => Except.error (RpmError.Crypto "Decryption failed")

theorem decrypt_data_encrypt_data (data key nonce : Bytes)
    (hK : key.length = 32) :
    decrypt_data (gcmSeal key nonce data) nonce key = Except.ok data := by
  unfold decrypt_data
  rw [if_neg (by rw [hK]; exact fun h => h rfl)]
  rw [gcmOpen_gcmSeal]

/-- In-memory model of the filesystem fragment the storage layer touches:
an association list from paths to byte contents. -/
structure Fs where
  files : List (String × Bytes)
deriving DecidableEq

/-- Model of reading a file (`std::fs::read`): `none` when the path is
absent. -/
def Fs.read (fs : Fs) (p : String) : Option Bytes :=
  match fs.files.find? (fun e => e.1 == p) with
  | some e => some e.2
  | none => none

/-- Model of `std::fs::write`: replaces the entire content of the path. -/
def Fs.write (fs : Fs) (p : String) (content : Bytes) : Fs :=
  ⟨(p, content) :: fs.files.filter (fun e => !(e.1 == p))⟩

theorem Fs.read_write (fs : Fs) (p : String) (content : Bytes) :
    (fs.write p content).read p = some content := by
  unfold Fs.read Fs.write
  rw [List.find?_cons_of_pos _ (by simp)]

/-- From `src/storage/mod.rs`, `PasswordStorage`: the storage layer is
parameterized by the vault's passwords directory. -/
structure PasswordStorage where
  passwords_dir : String

/-- From `src/storage/mod.rs`, `def_file_path`. -/
def PasswordStorage.def_file_path (st : PasswordStorage) : String :=
  st.passwords_dir ++ "/def"

/-- From `src/storage/mod.rs`, `password_file_path`. -/
def PasswordStorage.password_file_path (st : PasswordStorage)
    (filename : String) : String :=
  st.passwords_dir ++ "/" ++ filename

/-- From `src/storage/mod.rs`, `PasswordStorage::load_def_file`: missing
file yields the empty index; otherwise the content must be at least 12
bytes, is split into a 12-byte nonce and the ciphertext, decrypted,
UTF-8-decoded and deserialized. -/
def PasswordStorage.load_def_file (st : PasswordStorage) (fs : Fs)
    (key : Bytes) : Except RpmError DefFile :=
  match fs.read st.def_file_path with
  | none => Except.ok ⟨[]⟩
  | some encrypted_content =>
    if encrypted_content.length < 12 then
      Except.error (RpmError.Crypto "Invalid def file format")
    else
      match decrypt_data (encrypted_content.drop 12)
          (encrypted_content.take 12) key with
      | Except.error e => Except.error e
      | Except.ok plaintext =>
        match strFromBytes plaintext with
        | none => Except.error (RpmError.Crypto "Invalid UTF-8 in def file")
        | some json_str =>
          match defFileFromString json_str with
          | none => Except.error (RpmError.Serialization "invalid def file JSON")
          | some df => Except.ok df

/-- From `src/storage/mod.rs`, `PasswordStorage::save_def_file`: serializes
the index, encrypts it as one unit under a fresh nonce and writes
nonce ++ ciphertext as the whole file content (`ensure_passwords_dir` is
modelled as always succeeding). -/
def PasswordStorage.save_def_file (st : PasswordStorage) (fs : Fs)
    (def_file : DefFile) (key : Bytes) (nonce : Bytes) :
    Except RpmError Fs :=
  match encrypt_data (strToBytes (defFileToString def_file)) key nonce with
  | Except.error e => Except.error e
  | Except.ok (ciphertext, n) =>
    Except.ok (fs.write st.def_file_path (n ++ ciphertext))

/-- From `src/storage/mod.rs`, `PasswordStorage::encrypt_filename`. -/
def PasswordStorage.encrypt_filename (_st : PasswordStorage) (name : String)
    (key nonce : Bytes) : Except RpmError (String × String) :=
  match encrypt_data (strToBytes name) key nonce with
  | Except.error e => Except.error e
  | Except.ok (ciphertext, n) =>
    Except.ok (b64encode ciphertext, b64encode n)

/-- From `src/storage/mod.rs`, `PasswordStorage::decrypt_filename`. -/
def PasswordStorage.decrypt_filename (_st : PasswordStorage)
    (encrypted_name nonce : String) (key : Bytes) :
    Except RpmError String :=
  match b64decode encrypted_name with
  | none => Except.error (RpmError.Crypto "Invalid base64 in encrypted name")
  | some ciphertext =>
    match b64decode nonce with
    | none => Except.error (RpmError.Crypto "Invalid base64 in nonce")
    | some nonce_bytes =>
      match decrypt_data ciphertext nonce_bytes key with
      | Except.error e => Except.error e
      | Except.ok plaintext =>
        match strFromBytes plaintext with
        | none => Except.error (RpmError.Crypto "Invalid UTF-8 in decrypted name")
        | some s => Except.ok s

/-- From `src/storage/mod.rs`, `PasswordStorage::load_password_file`: reads
the record (a missing file is an Io error of kind NotFound, and
`read_to_string` rejects non-UTF-8 content with an Io error of another
kind), parses the JSON, base64-decodes ciphertext and nonce and calls
`decrypt_password` — so this call inherits the latter's panic case. -/
def PasswordStorage.load_password_file (st : PasswordStorage) (fs : Fs)
    (filename : String) (key : Bytes) : PRes (Except RpmError String) :=
  match fs.read (st.password_file_path filename) with
  | none => PRes.ret (Except.error (RpmError.Io IoKind.notFound))
  | some content =>
    match strFromBytes content with
    | none => PRes.ret (Except.error (RpmError.Io IoKind.other))
    | some json_str =>
      match pwdFileFromString json_str with
      | none => PRes.ret (Except.error (RpmError.Serialization "invalid password file JSON"))
      | some pf =>
        match b64decode pf.encrypted_password with
        | none => PRes.ret (Except.error (RpmError.Crypto "Invalid base64 in encrypted password"))
        | some ciphertext =>
          match b64decode pf.nonce with
          | none => PRes.ret (Except.error (RpmError.Crypto "Invalid base64 in nonce"))
          | some nonce => decrypt_password ciphertext nonce key

/-- Loop body of `PasswordStorage::list_decrypted_names`: decrypts each
entry's display name in order, aborting on the first failure. -/
def namesLoop (st : PasswordStorage) (key : Bytes) :
    List DefFileEntry → Except RpmError (List (String × String))
  | [] => Except.ok []
  | e :: rest =>
    match st.decrypt_filename e.encrypted_name e.nonce key with
    | Except.error err => Except.error err
    | Except.ok name =>
      match namesLoop st key rest with
      | Except.error err => Except.error err
      | Except.ok tail => Except.ok ((e.encrypted_filename, name) :: tail)

/-- From `src/storage/mod.rs`, `PasswordStorage::list_decrypted_names`. -/
def PasswordStorage.list_decrypted_names (st : PasswordStorage) (fs : Fs)
    (key : Bytes) : Except RpmError (List (String × String)) :=
  match st.load_def_file fs key with
  | Except.error e => Except.error e
  | Except.ok df => namesLoop st key df.entries

/-- Loop body of `PasswordStorage::update_entry`: re-encrypts the display
name of the first entry whose stored filename matches, leaving all other
entries untouched. -/
def updateEntriesLoop (st : PasswordStorage) (filename new_name : String)
    (key nonce : Bytes) :
    List DefFileEntry → Except RpmError (List DefFileEntry)
  | [] => Except.ok []
  | e :: rest =>
    if e.encrypted_filename == filename then
      match st.encrypt_filename new_name key nonce with
      | Except.error err => Except.error err
      | Except.ok (en, nn) =>
        Except.ok ({ e with encrypted_name := en, nonce := nn } :: rest)
    else
      match updateEntriesLoop st filename new_name key nonce rest with
      | Except.error err => Except.error err
      | Except.ok tail => Except.ok (e :: tail)

/-- From `src/storage/mod.rs`, `PasswordStorage::update_entry`: loads the
index, updates the first entry matching `filename` (no entry matching is
not an error), and saves the index again under a fresh nonce.  The two
nonce parameters model the two fresh nonces drawn by `encrypt_filename`
and `save_def_file`. -/
def PasswordStorage.update_entry (st : PasswordStorage) (fs : Fs)
    (filename new_name : String) (key nonce_name nonce_save : Bytes) :
    Except RpmError Fs :=
  match st.load_def_file fs key with
  | Except.error e => Except.error e
  | Except.ok df =>
    match updateEntriesLoop st filename new_name key nonce_name df.entries with
    | Except.error e => Except.error e
    | Except.ok entries => st.save_def_file fs ⟨entries⟩ key nonce_save

theorem save_def_file_eq (st : PasswordStorage) (fs : Fs) (df : DefFile)
    (key nonce : Bytes) (hK : key.length = 32) :
    st.save_def_file fs df key nonce = Except.ok
      (fs.write st.def_file_path
        (nonce ++ gcmSeal key nonce (strToBytes (defFileToString df)))) := by
  unfold PasswordStorage.save_def_file encrypt_data
  rw [if_neg (by rw [hK]; exact fun h => h rfl)]

theorem load_def_file_write (st : PasswordStorage) (fs : Fs) (df : DefFile)
    (key nonce : Bytes) (hK : key.length = 32) (hn : nonce.length = 12) :
    st.load_def_file
      (fs.write st.def_file_path
        (nonce ++ gcmSeal key nonce (strToBytes (defFileToString df)))) key
      = Except.ok df := by
  unfold PasswordStorage.load_def_file
  rw [Fs.read_write]
  simp only []
  have hlen : ¬ ((nonce ++ gcmSeal key nonce (strToBytes (defFileToString df))).length < 12) := by
    rw [List.length_append, hn]
    exact Nat.not_lt.mpr (Nat.le_add_right _ _)
  rw [if_neg hlen]
  rw [List.take_left' hn, List.drop_left' hn]
  rw [decrypt_data_encrypt_data _ _ _ hK]
  simp only []
  rw [strFromBytes_strToBytes]
  simp only []
  rw [defFileFromString_defFileToString]

theorem decrypt_filename_of_sealed (st : PasswordStorage) (name : String)
    (key nc : Bytes) (hK : key.length = 32) :
    st.decrypt_filename (b64encode (gcmSeal key nc (strToBytes name)))
      (b64encode nc) key = Except.ok name := by
  unfold PasswordStorage.decrypt_filename
  rw [b64decode_b64encode]
  simp only []
  rw [b64decode_b64encode]
  simp only []
  rw [decrypt_data_encrypt_data _ _ _ hK]
  simp only []
  rw [strFromBytes_strToBytes]

theorem encrypt_filename_eq (st : PasswordStorage) (name : String)
    (key nc : Bytes) (hK : key.length = 32) :
    st.encrypt_filename name key nc = Except.ok
      (b64encode (gcmSeal key nc (strToBytes name)), b64encode nc) := by
  unfold PasswordStorage.encrypt_filename encrypt_data
  rw [if_neg (by rw [hK]; exact fun h => h rfl)]

/-- Builds the index entries that encrypt the given (opaque id, display
name) pairs, one fresh nonce per entry; this is how entries come to exist
through `add_entry` in the source. -/
def build_entries (st : PasswordStorage) (key : Bytes) :
    List (String × String) → List Bytes → Except RpmError (List DefFileEntry)
  | [], _ => Except.ok []
  | _ :: _, [] => Except.error (RpmError.InvalidInput "missing nonce")
  | pr :: ps, nc :: ns =>
    match st.encrypt_filename pr.2 key nc with
    | Except.error e => Except.error e
    | Except.ok (en, nn) =>
      match build_entries st key ps ns with
      | Except.error e => Except.error e
      | Except.ok rest => Except.ok (⟨pr.1, en, nn⟩ :: rest)

theorem namesLoop_build_entries (st : PasswordStorage) (key : Bytes)
    (pairs : List (String × String)) (nonces : List Bytes)
    (es : List DefFileEntry) (hK : key.length = 32)
    (hbuild : build_entries st key pairs nonces = Except.ok es) :
    namesLoop st key es = Except.ok pairs := by
  induction pairs generalizing nonces es with
  | nil =>
    unfold build_entries at hbuild
    cases hbuild
    rfl
  | cons pr ps ih =>
    cases nonces with
    | nil =>
      unfold build_entries at hbuild
      cases hbuild
    | cons nc ns =>
      unfold build_entries at hbuild
      rw [encrypt_filename_eq st pr.2 key nc hK] at hbuild
      simp only [] at hbuild
      cases hb : build_entries st key ps ns with
      | error e =>
        rw [hb] at hbuild
        cases hbuild
      | ok rest =>
        rw [hb] at hbuild
        simp only [] at hbuild
        cases hbuild
        unfold namesLoop
        rw [decrypt_filename_of_sealed st pr.2 key nc hK]
        simp only []
        rw [ih ns rest hb]

theorem updateEntriesLoop_absent (st : PasswordStorage)
    (filename new_name : String) (key nc : Bytes)
    (es : List DefFileEntry)
    (habsent : ∀ e ∈ es, e.encrypted_filename ≠ filename) :
    updateEntriesLoop st filename new_name key nc es = Except.ok es := by
  induction es with
  | nil => rfl
  | cons e rest ih =>
    unfold updateEntriesLoop
    have hne : (e.encrypted_filename == filename) = false :=
      beq_eq_false_iff_ne.mpr (habsent e (List.mem_cons_self e rest))
    rw [hne]
    simp only [Bool.false_eq_true, if_false]
    rw [ih (fun x hx => habsent x (List.mem_cons_of_mem e hx))]

theorem decrypt_password_no_io_error (ct n k : Bytes) (kind : IoKind) :
    decrypt_password ct n k ≠ PRes.ret (Except.error (RpmError.Io kind)) := by
  unfold decrypt_password
  by_cases h1 : k.length ≠ 32
  · rw [if_pos h1]
    simp
  · rw [if_neg h1]
    by_cases h2 : n.length ≠ 12
    · rw [if_pos h2]
      simp
    · rw [if_neg h2]
      cases gcmOpen ct n k with
      | none => simp
      | some pt =>
        simp only []
        cases strFromBytes pt with
        | none => simp
        | some s => simp

/-- C1: on an input with a nonce whose length is not 12 bytes — here the
concrete call with empty ciphertext, a 13-byte nonce and a valid 32-byte
key — `decrypt_password` panics (`Nonce::from_slice` is the `GenericArray`
length assertion, modelled by `PRes.panicked`) instead of returning a typed
Crypto error, contradicting the claimed panic-freedom on corrupted input. -/
theorem c1_decrypt_password_panics_on_bad_nonce_length :
    decrypt_password [] (List.replicate 13 0) (List.replicate 32 0) =
      PRes.panicked := by
  rfl

/-- C2: for every secret string S, every 32-byte key K and every generated
12-byte nonce, `encrypt_password` succeeds and `decrypt_password` on the
resulting (ciphertext, nonce) pair under the same key returns S. -/
theorem c2_encrypt_decrypt_roundtrip (S : String) (K nonce : Bytes)
    (hK : K.length = 32) (hn : nonce.length = 12) :
    ∃ ct, encrypt_password S K nonce = Except.ok (ct, nonce) ∧
      decrypt_password ct nonce K = PRes.ret (Except.ok S) := by
  refine ⟨gcmSeal K nonce (strToBytes S), ?_, ?_⟩
  · unfold encrypt_password
    rw [if_neg (by rw [hK]; exact fun h => h rfl)]
  · unfold decrypt_password
    rw [if_neg (by rw [hK]; exact fun h => h rfl)]
    rw [if_neg (by rw [hn]; exact fun h => h rfl)]
    rw [gcmOpen_gcmSeal]
    simp only []
    rw [strFromBytes_strToBytes]

theorem c2_witness :
    ∃ ct, encrypt_password "secret" (List.replicate 32 0) (List.replicate 12 7) =
        Except.ok (ct, List.replicate 12 7) ∧
      decrypt_password ct (List.replicate 12 7) (List.replicate 32 0) =
        PRes.ret (Except.ok "secret") :=
  c2_encrypt_decrypt_roundtrip "secret" (List.replicate 32 0)
    (List.replicate 12 7) rfl rfl

/-- C3: saving index entries that encrypt the given (opaque id, display
name) pairs with `save_def_file` writes the 12-byte nonce followed by the
ciphertext as the entire `def` file (replacing any previous content), and
reloading with `load_def_file` then listing with `list_decrypted_names`
under the same key returns exactly the saved pairs. -/
theorem c3_index_roundtrip (st : PasswordStorage) (fs : Fs)
    (pairs : List (String × String)) (nonces : List Bytes)
    (es : List DefFileEntry) (key nonce : Bytes)
    (hK : key.length = 32) (hn : nonce.length = 12)
    (hbuild : build_entries st key pairs nonces = Except.ok es) :
    ∃ fs' ct,
      st.save_def_file fs ⟨es⟩ key nonce = Except.ok fs' ∧
      fs' = fs.write st.def_file_path (nonce ++ ct) ∧
      st.load_def_file fs' key = Except.ok ⟨es⟩ ∧
      st.list_decrypted_names fs' key = Except.ok pairs := by
  refine ⟨_, gcmSeal key nonce (strToBytes (defFileToString ⟨es⟩)),
    save_def_file_eq st fs ⟨es⟩ key nonce hK, rfl,
    load_def_file_write st fs ⟨es⟩ key nonce hK hn, ?_⟩
  unfold PasswordStorage.list_decrypted_names
  rw [load_def_file_write st fs ⟨es⟩ key nonce hK hn]
  simp only []
  exact namesLoop_build_entries st key pairs nonces es hK hbuild

def wStore : PasswordStorage := ⟨"vault"⟩

def wKey : Bytes := List.replicate 32 0

def wN1 : Bytes := List.replicate 12 1

def wN2 : Bytes := List.replicate 12 2

def wN3 : Bytes := List.replicate 12 3

def wPairs : List (String × String) := [("id1", "Gmail"), ("id2", "Bank")]

def wEntries : List DefFileEntry :=
  [⟨"id1", b64encode (gcmSeal wKey wN1 (strToBytes "Gmail")), b64encode wN1⟩,
   ⟨"id2", b64encode (gcmSeal wKey wN2 (strToBytes "Bank")), b64encode wN2⟩]

theorem c3_witness :
    ∃ fs' ct,
      wStore.save_def_file ⟨[]⟩ ⟨wEntries⟩ wKey wN3 = Except.ok fs' ∧
      fs' = Fs.write ⟨[]⟩ wStore.def_file_path (wN3 ++ ct) ∧
      wStore.load_def_file fs' wKey = Except.ok ⟨wEntries⟩ ∧
      wStore.list_decrypted_names fs' wKey = Except.ok wPairs :=
  c3_index_roundtrip wStore ⟨[]⟩ wPairs [wN1, wN2] wEntries wKey wN3
    rfl rfl rfl

/-- C4: a missing secret record file yields an Io error of kind NotFound
from `load_password_file`, and whenever the file exists the result is never
that error, so a caller distinguishes "never existed" from
"corrupted/wrong key" by the error kind alone. -/
theorem c4_missing_file_error_distinct (st : PasswordStorage) (fs : Fs)
    (filename : String) (key : Bytes) :
    (fs.read (st.password_file_path filename) = none →
      st.load_password_file fs filename key =
        PRes.ret (Except.error (RpmError.Io IoKind.notFound))) ∧
    (∀ c, fs.read (st.password_file_path filename) = some c →
      st.load_password_file fs filename key ≠
        PRes.ret (Except.error (RpmError.Io IoKind.notFound))) := by
  constructor
  · intro h
    unfold PasswordStorage.load_password_file
    rw [h]
  · intro c hc
    unfold PasswordStorage.load_password_file
    rw [hc]
    simp only []
    cases strFromBytes c with
    | none => simp
    | some json_str =>
      simp only []
      cases pwdFileFromString json_str with
      | none => simp
      | some pf =>
        simp only []
        cases b64decode pf.encrypted_password with
        | none => simp
        | some ciphertext =>
          simp only []
          cases b64decode pf.nonce with
          | none => simp
          | some nonce =>
            simp only []
            exact decrypt_password_no_io_error ciphertext nonce key
              IoKind.notFound

theorem c4_witness :
    PasswordStorage.load_password_file ⟨"vault"⟩ ⟨[]⟩ "a.pwd" wKey =
      PRes.ret (Except.error (RpmError.Io IoKind.notFound)) :=
  (c4_missing_file_error_distinct ⟨"vault"⟩ ⟨[]⟩ "a.pwd" wKey).1 rfl

/-- C5: verifying a password against its own `hash_password` output returns
true, verifying any different password against that output returns false,
and the mismatch is the boolean false, not an error. -/
theorem c5_verify_password (p q saltStr hstr : String)
    (hhash : hash_password p saltStr = Except.ok hstr) :
    verify_password p hstr = Except.ok true ∧
    (q ≠ p → verify_password q hstr = Except.ok false) := by
  unfold hash_password at hhash
  cases hhash
  constructor
  · unfold verify_password
    rw [phcParse_phcString]
    simp only []
    rfl
  · intro hne
    unfold verify_password
    rw [phcParse_phcString]
    simp only []
    rw [decide_eq_false]
    intro heq
    unfold argon2Digest at heq
    exact hne (strToBytes_inj (List.append_cancel_left heq))

def wHash : String := phcString "salty" (argon2Digest "correct" "salty")

theorem c5_witness :
    verify_password "correct" wHash = Except.ok true ∧
    verify_password "wrong" wHash = Except.ok false := by
  have t := c5_verify_password "correct" "wrong" "salty" wHash rfl
  exact ⟨t.1, t.2 (by decide)⟩

/-- C6: with a supplied salt, `derive_key` does not depend on the generated
salt (the only source of randomness), so two calls with the same password
and salt agree; and any successful result is exactly 32 bytes. -/
theorem c6_derive_key_deterministic (p : String) (s : Bytes) (g g' : String) :
    derive_key p (some s) g = derive_key p (some s) g' ∧
    ∀ k, derive_key p (some s) g = Except.ok k → k.length = 32 := by
  constructor
  · rfl
  · intro k hk
    unfold derive_key at hk
    simp only [] at hk
    cases hsalt : saltStringFromB64 (b64encode s) with
    | none =>
      rw [hsalt] at hk
      cases hk
    | some ss =>
      rw [hsalt] at hk
      simp only [] at hk
      unfold argon2HashInto at hk
      by_cases hlen : (strToBytes ss).length < 8
      · rw [if_pos hlen] at hk
        cases hk
      · rw [if_neg hlen] at hk
        cases hk
        rw [List.length_take, List.length_append, List.length_replicate]
        exact Nat.min_eq_left (Nat.le_add_left 32 _)

def wDerivedKey : Bytes :=
  match derive_key "master" (some (List.replicate 8 0)) "g" with
  | Except.ok k => k
  | Except.error _ => []

theorem c6_witness :
    derive_key "master" (some (List.replicate 8 0)) "g1" =
      derive_key "master" (some (List.replicate 8 0)) "g2" ∧
    wDerivedKey.length = 32 := by
  have t := c6_derive_key_deterministic "master" (List.replicate 8 0) "g1" "g2"
  exact ⟨t.1, t.2 wDerivedKey rfl⟩

/-- C7: loading the index from a vault directory in which no `def` file
exists returns the empty entry list, not an error, for every key (even one
of invalid length). -/
theorem c7_load_def_file_missing (st : PasswordStorage) (fs : Fs)
    (key : Bytes) (h : fs.read st.def_file_path = none) :
    st.load_def_file fs key = Except.ok ⟨[]⟩ := by
  unfold PasswordStorage.load_def_file
  rw [h]

theorem c7_witness :
    PasswordStorage.load_def_file ⟨"vault"⟩ ⟨[]⟩ [1, 2, 3] = Except.ok ⟨[]⟩ :=
  c7_load_def_file_missing ⟨"vault"⟩ ⟨[]⟩ [1, 2, 3] rfl

/-- C8: any key whose length is not 32 bytes is rejected with the Crypto
error before any cipher operation, by `encrypt_password` for every
plaintext and nonce, and by `decrypt_password` for every ciphertext and
nonce (even a nonce that would otherwise trigger the panic case). -/
theorem c8_key_length_rejected (pt : String) (ct nonce key : Bytes)
    (h : key.length ≠ 32) :
    encrypt_password pt key nonce =
      Except.error (RpmError.Crypto "Key must be 32 bytes for AES-256") ∧
    decrypt_password ct nonce key =
      PRes.ret (Except.error (RpmError.Crypto "Key must be 32 bytes for AES-256")) := by
  constructor
  · unfold encrypt_password
    rw [if_pos h]
  · unfold decrypt_password
    rw [if_pos h]

theorem c8_witness :
    encrypt_password "x" [0, 1, 2] [] =
      Except.error (RpmError.Crypto "Key must be 32 bytes for AES-256") ∧
    decrypt_password [9] [] [0, 1, 2] =
      PRes.ret (Except.error (RpmError.Crypto "Key must be 32 bytes for AES-256")) :=
  c8_key_length_rejected "x" [9] [] [0, 1, 2] (by decide)

/-- C9: renaming via `update_entry` with an opaque id absent from the index
succeeds and leaves the index logically unchanged: the saved file decrypts
back to exactly the same entries. -/
theorem c9_update_entry_absent (st : PasswordStorage) (fs : Fs) (df : DefFile)
    (filename new_name : String) (key nonce_name nonce_save : Bytes)
    (hK : key.length = 32) (hn : nonce_save.length = 12)
    (hload : st.load_def_file fs key = Except.ok df)
    (habsent : ∀ e ∈ df.entries, e.encrypted_filename ≠ filename) :
    ∃ fs',
      st.update_entry fs filename new_name key nonce_name nonce_save =
        Except.ok fs' ∧
      st.load_def_file fs' key = Except.ok df := by
  obtain ⟨es⟩ := df
  refine ⟨fs.write st.def_file_path
      (nonce_save ++ gcmSeal key nonce_save (strToBytes (defFileToString ⟨es⟩))), ?_, ?_⟩
  · unfold PasswordStorage.update_entry
    rw [hload]
    simp only []
    rw [updateEntriesLoop_absent st filename new_name key nonce_name es habsent]
    simp only []
    exact save_def_file_eq st fs ⟨es⟩ key nonce_save hK
  · exact load_def_file_write st fs ⟨es⟩ key nonce_save hK hn

def wFs9 : Fs :=
  Fs.write ⟨[]⟩ (PasswordStorage.def_file_path ⟨"vault"⟩)
    (wN3 ++ gcmSeal wKey wN3 (strToBytes (defFileToString ⟨[]⟩)))

theorem c9_witness :
    ∃ fs',
      PasswordStorage.update_entry ⟨"vault"⟩ wFs9 "absent-id" "NewName" wKey
        wN1 wN2 = Except.ok fs' ∧
      PasswordStorage.load_def_file ⟨"vault"⟩ fs' wKey = Except.ok ⟨[]⟩ :=
  c9_update_entry_absent ⟨"vault"⟩ wFs9 ⟨[]⟩ "absent-id" "NewName" wKey wN1 wN2
    rfl rfl
    (load_def_file_write ⟨"vault"⟩ ⟨[]⟩ ⟨[]⟩ wKey wN3 rfl rfl)
    (by intro e he; cases he)

/-- C10: when the `def` file exists with content shorter than 12 bytes,
`load_def_file` returns the Crypto error "Invalid def file format" for
every key — the length check precedes both the nonce/ciphertext split and
the key-length check of the cipher layer. -/
theorem c10_short_def_file (st : PasswordStorage) (fs : Fs) (key c : Bytes)
    (hread : fs.read st.def_file_path = some c) (hlen : c.length < 12) :
    st.load_def_file fs key =
      Except.error (RpmError.Crypto "Invalid def file format") := by
  unfold PasswordStorage.load_def_file
  rw [hread]
  simp only []
  rw [if_pos hlen]

theorem c10_witness :
    PasswordStorage.load_def_file ⟨"vault"⟩
      (Fs.write ⟨[]⟩ (PasswordStorage.def_file_path ⟨"vault"⟩) [1, 2, 3]) [] =
      Except.error (RpmError.Crypto "Invalid def file format") :=
  c10_short_def_file ⟨"vault"⟩
    (Fs.write ⟨[]⟩ (PasswordStorage.def_file_path ⟨"vault"⟩) [1, 2, 3]) []
    [1, 2, 3] (Fs.read_write _ _ _) (by decide)

end Rpm
